import Mathlib

/-!
Verification of the cheek job-scheduler core against its specification.

This file gives a shallow embedding of the scheduler's run lifecycle
(`pkg/job.go`: the executor `execCommandContext`, the retry wrapper
`execCommandWithRetryContext`, `setup`/`finalize`/`logToDb`, the fan-out
`OnEvent`, and `secret.MarshalText`) and of the SQLite persistence layer
(`InsertOrUpdateJobRun`, `GetLogLines`, `LoadJobRun` over the `log` and
`log_lines` tables), followed by theorems settling the spec's claims.

Modelling conventions: wall-clock instants and durations are `Nat`
milliseconds; nullable SQL/Go values are `Option`; Go's `bytes.Buffer`
captured-output buffer is the `logBuf : String` field, separate from the
`log` field, exactly as in the Go `JobRun` struct; the ambient behaviour
of one child-process execution (start failure, wait outcome, output bytes,
context cancellation) is a record `ExecEnv`; SQL `ORDER BY` is modelled by
`List.insertionSort` on the ordering column.
-/

namespace Cheek

/-- Exit-status constant `StatusOK` from pkg/job.go. -/
def StatusOK : Int := 0

/-- Exit-status constant `StatusError` from pkg/job.go. -/
def StatusError : Int := -1

/-- One job execution attempt: the Go struct `JobRun` (pkg/job.go).
`logBuf` models the `bytes.Buffer` that the tee writer appends captured
child output to; `log` models the `Log` string field; `status` is the
nullable exit status (`none` while in flight); `duration` is `none` until
the executor assigns it (Go zero value). -/
structure JobRun where
  logEntryId : Nat := 0
  status : Option Int := none
  logBuf : String := ""
  log : String := ""
  name : String := ""
  triggeredAt : Nat := 0
  triggeredBy : String := ""
  duration : Option Nat := none
deriving Repr, DecidableEq

/-- Outcome of `cmd.Wait()` for a started child process: clean exit,
an `exec.ExitError` carrying the OS exit code, or any other error. -/
inductive WaitOutcome where
  | clean
  | exitError (code : Int)
  | otherError
deriving Repr, DecidableEq

/-- Ambient behaviour one executor invocation encounters: the job's
command and environment, what the child writes to the tee writer, whether
`cmd.Start()` fails, the `cmd.Wait()` outcome, whether the supervising
context is cancelled at wait time, and the clock value at completion. -/
structure ExecEnv where
  command : List String := []
  osEnv : List String := []
  jobEnv : List (String × String) := []
  workingDirectory : String := ""
  output : String := ""
  startFails : Bool := false
  startErr : String := "start error"
  wait : WaitOutcome := .clean
  ctxCancelled : Bool := false
  now : Nat := 0

/-- Result of one executor invocation: the returned run, the environment
slice passed to the child process (`cmd.Env`), and whether the child was
started. -/
structure ExecResult where
  run : JobRun
  childEnv : List String
  started : Bool

/-- Shallow embedding of `JobSpec.execCommandContext` (pkg/job.go lines
199-299). The `trigger` argument is used by the Go code only in log
statements, so it does not influence the result. Branches in source
order: empty command; building `cmd.Env` from `os.Environ()` plus the
job env rendered with `fmt.Sprintf("%s=%s", k, v)` (raw values, not the
`MarshalText` rendering); start failure (message written to the tee
writer and assigned to `Log`); wait returning an `ExitError` (overridden
to `StatusError` with a shutdown notice when the context is cancelled,
otherwise the OS exit code with an `Exit code:` line appended to `Log`);
other wait errors (early return, no duration); clean exit. The duration
assignment `time.Since(jr.TriggeredAt)` runs only on the paths that fall
through to it. -/
def execCommandContext (e : ExecEnv) (jr : JobRun) (_trigger : String) : ExecResult :=
  match e.command with
  | [] =>
    let jr1 := { jr with
      log := "Job unable to start: no command specified",
      status := some StatusError }
    { run := jr1, childEnv := [], started := false }
  | _ :: _ =>
    let childEnv := e.osEnv ++ e.jobEnv.map (fun kv => kv.1 ++ "=" ++ kv.2)
    if e.startFails then
      let msg := "job unable to start: " ++ e.startErr
      let jr1 := { jr with
        logBuf := jr.logBuf ++ msg,
        log := msg,
        status := some StatusError }
      { run := jr1, childEnv := childEnv, started := false }
    else
      let jr1 := { jr with logBuf := jr.logBuf ++ e.output }
      match e.wait with
      | .exitError code =>
        if e.ctxCancelled then
          let jr2 := { jr1 with
            log := jr1.log ++ "\nJob killed due to scheduler shutdown",
            status := some StatusError,
            duration := some (e.now - jr1.triggeredAt) }
          { run := jr2, childEnv := childEnv, started := true }
        else
          let jr2 := { jr1 with
            status := some code,
            log := jr1.log ++ "Exit code: " ++ toString code ++ "\n",
            duration := some (e.now - jr1.triggeredAt) }
          { run := jr2, childEnv := childEnv, started := true }
      | .otherError =>
        { run := { jr1 with status := some StatusError },
          childEnv := childEnv, started := true }
      | .clean =>
        { run := { jr1 with
            status := some StatusOK,
            duration := some (e.now - jr1.triggeredAt) },
          childEnv := childEnv, started := true }

/-- The exit status `execCommandContext` assigns, as a function of the
ambient behaviour alone (every branch overwrites `status`). -/
def execStatus (e : ExecEnv) : Int :=
  match e.command with
  | [] => StatusError
  | _ :: _ =>
    if e.startFails then StatusError
    else
      match e.wait with
      | .exitError code => if e.ctxCancelled then StatusError else code
      | .otherError => StatusError
      | .clean => StatusOK

/-- One row of the `log` table created by `InitDB` (columns id, job,
triggered_at, triggered_by, duration, status, message, is_running, with
UNIQUE(job, triggered_at, triggered_by)). -/
structure RunRow where
  id : Nat
  job : String
  triggeredAt : Nat
  triggeredBy : String
  duration : Option Nat
  status : Option Int
  message : String
  isRunning : Nat
deriving Repr, DecidableEq

/-- SQLite state for the `log` table: the rows, the AUTOINCREMENT
counter, and the connection's `last_insert_rowid` value (set by INSERTs,
left unchanged by the DO UPDATE arm of an upsert). -/
structure RunsDB where
  rows : List RunRow := []
  nextId : Nat := 1
  lastInsertRowid : Nat := 0
deriving Repr, DecidableEq

/-- A freshly initialised database with no runs. -/
def emptyDB : RunsDB := {}

/-- Does row `r` match run `jr` on the unique key (job, triggered_at,
triggered_by)? -/
def keyMatches (jr : JobRun) (r : RunRow) : Bool :=
  r.job == jr.name && r.triggeredAt == jr.triggeredAt && r.triggeredBy == jr.triggeredBy

/-- The DO UPDATE SET arm of the upsert: on the conflicting row, assign
duration, status, message and the derived is_running from the excluded
run; leave every other row unchanged. -/
def updRow (jr : JobRun) (r : RunRow) : RunRow :=
  if keyMatches jr r then
    { r with duration := jr.duration, status := jr.status,
             message := jr.log, isRunning := if jr.status = none then 1 else 0 }
  else r

/-- Shallow embedding of `InsertOrUpdateJobRun` (persistence layer):
derives `is_running` from `status == nil`; performs
`INSERT ... ON CONFLICT(job, triggered_at, triggered_by) DO UPDATE SET
duration, status, message, is_running`; then, when the run's
`LogEntryId` is still 0, fills it from `LastInsertId` if positive and
otherwise by a `SELECT id ... WHERE` lookup on the unique key. -/
def InsertOrUpdateJobRun (db : RunsDB) (jr : JobRun) : RunsDB × JobRun :=
  let isRunning : Nat := if jr.status = none then 1 else 0
  match db.rows.find? (keyMatches jr) with
  | some _ =>
    let db1 : RunsDB := { db with rows := db.rows.map (updRow jr) }
    let jr1 :=
      if jr.logEntryId == 0 then
        if db1.lastInsertRowid > 0 then { jr with logEntryId := db1.lastInsertRowid }
        else
          match db1.rows.find? (keyMatches jr) with
          | some r => { jr with logEntryId := r.id }
          | none => jr
      else jr
    (db1, jr1)
  | none =>
    let newRow : RunRow := {
      id := db.nextId, job := jr.name, triggeredAt := jr.triggeredAt,
      triggeredBy := jr.triggeredBy, duration := jr.duration,
      status := jr.status, message := jr.log, isRunning := isRunning }
    let db1 : RunsDB := { rows := db.rows ++ [newRow], nextId := db.nextId + 1,
                          lastInsertRowid := db.nextId }
    let jr1 := if jr.logEntryId == 0 then { jr with logEntryId := db.nextId } else jr
    (db1, jr1)

/-- Parameters and ambient behaviour for one invocation of the retry
wrapper `execCommandWithRetryContext`: the job's name and retry budget,
the clock value `setup` stamps as `TriggeredAt`, the behaviour each
executor attempt encounters (indexed by the `tries` counter), and the
context-cancellation observations (`ctxBefore tries` is `ctx.Err() != nil`
checked before attempt `tries`; `cancelSleep tries` is `ctx.Done()`
winning the back-off race after `tries` was incremented). The embedding
covers a job whose hooks trigger no downstream jobs, so `finalize`'s
`OnEvent` call writes no further rows; fan-out dispatch is modelled
separately by `dispatchDownstream`. -/
structure RetryJob where
  name : String
  retries : Nat
  now : Nat
  attemptEnv : Nat → ExecEnv
  ctxBefore : Nat → Bool
  cancelSleep : Nat → Bool

/-- State threaded through the retry loop: the database, the single
`JobRun` value the loop mutates, and the list of executor invocations
made so far, each recorded as (trigger argument, resulting status). -/
structure RetryState where
  db : RunsDB
  jr : JobRun
  invocations : List (String × Option Int)

/-- Shallow embedding of `JobSpec.setup` (pkg/job.go lines 82-96): build
the run with `Status = nil` and the given trigger, then `logToDb`
(an upsert that inserts the `is_running = 1` row). -/
def setup (j : RetryJob) (db : RunsDB) (trigger : String) : RunsDB × JobRun :=
  let jr : JobRun := { name := j.name, triggeredAt := j.now,
                       triggeredBy := trigger, status := none }
  InsertOrUpdateJobRun db jr

/-- `JobRun.flushLogBuffer`: `jr.Log = jr.logBuf.String()` (overwrites
`Log` with the buffer contents). -/
def flushLogBuffer (jr : JobRun) : JobRun := { jr with log := jr.logBuf }

/-- Shallow embedding of `JobSpec.finalize` (pkg/job.go lines 114-125)
for a job with no downstream triggers: flush the log buffer, then
`logToDb` (upsert; now `is_running = 0` when a status is set). -/
def finalize (db : RunsDB) (jr : JobRun) : RunsDB × JobRun :=
  InsertOrUpdateJobRun db (flushLogBuffer jr)

/-- The trigger argument the retry loop passes to the executor on
iteration `tries`: the original trigger for attempt 0, and
`fmt.Sprintf("%s[retry=%d]", trigger, tries)` for `tries > 0`. -/
def retryTrigger (trigger : String) (tries : Nat) : String :=
  if tries == 0 then trigger
  else trigger ++ "[retry=" ++ toString tries ++ "]"

/-- The loop body of `execCommandWithRetryContext` (pkg/job.go lines
139-182), with `fuel = j.retries + 1 - tries` making the Go condition
`tries < j.Retries+1` structural. Branches in source order: the
pre-attempt cancellation check (sets the cancellation text and
`StatusError`, finalizes, returns); the executor call with the
`retryTrigger` argument; `finalize`; the `*jr.Status == StatusOK` break;
the back-off `select` racing `ctx.Done()` (appends a notice and returns
with `StatusError`, without finalizing). -/
def retryLoop (j : RetryJob) (trigger : String) : Nat → Nat → RetryState → RetryState
  | 0, _, st => st
  | fuel + 1, tries, st =>
    if j.ctxBefore tries then
      let jr0 := { st.jr with log := "Job cancelled due to scheduler shutdown",
                              status := some StatusError }
      let fin := finalize st.db jr0
      { st with db := fin.1, jr := fin.2 }
    else
      let triggerArg := retryTrigger trigger tries
      let res := execCommandContext (j.attemptEnv tries) st.jr triggerArg
      let fin := finalize st.db res.run
      let st1 : RetryState :=
        { db := fin.1, jr := fin.2,
          invocations := st.invocations ++ [(triggerArg, res.run.status)] }
      if st1.jr.status == some StatusOK then st1
      else
        let tries1 := tries + 1
        if j.cancelSleep tries1 then
          let jr2 := { st1.jr with
                       log := st1.jr.log ++ "\nJob cancelled during retry timeout",
                       status := some StatusError }
          { st1 with jr := jr2 }
        else
          retryLoop j trigger fuel tries1 st1

/-- Shallow embedding of `JobSpec.execCommandWithRetryContext`
(pkg/job.go lines 131-185): `setup` inserts the in-flight row, then the
retry loop runs with `tries = 0` and budget `retries + 1`. -/
def execCommandWithRetryContext (j : RetryJob) (db0 : RunsDB) (trigger : String) :
    RetryState :=
  let s := setup j db0 trigger
  retryLoop j trigger (j.retries + 1) 0 { db := s.1, jr := s.2, invocations := [] }

/-- Outcome of `JobRun.logToDb` (pkg/job.go lines 98-112). -/
inductive LogDbOutcome where
  | noDbWarned
  | saved
  | warned
  | panicked
deriving Repr, DecidableEq

/-- Shallow embedding of `JobRun.logToDb`: with no DB configured it warns
and returns; on a store error it warns when the job has a `globalSchedule`
back-reference and otherwise executes `panic(err)`. -/
def logToDb (hasDb : Bool) (hasGlobalSchedule : Bool) (dbResult : Except String Unit) :
    LogDbOutcome :=
  if !hasDb then .noDbWarned
  else
    match dbResult with
    | .ok _ => .saved
    | .error _ => if hasGlobalSchedule then .warned else .panicked

/-- The slice of a `JobSpec` that fan-out dispatch reads. -/
structure JobSpecLite where
  name : String
  disableConcurrentExecution : Bool := false
  onSuccessTrigger : List String := []
  onErrorTrigger : List String := []
deriving Repr, DecidableEq

/-- The slice of a `Schedule` that fan-out dispatch reads: the job map
and the global hook bundles. -/
structure ScheduleLite where
  jobs : List (String × JobSpecLite) := []
  onSuccessTrigger : List String := []
  onErrorTrigger : List String := []
deriving Repr, DecidableEq

/-- Go map indexing `s.Jobs[tn]`: the mapped job when present. -/
def lookupJob (s : ScheduleLite) (n : String) : Option JobSpecLite :=
  (s.jobs.find? (fun kv => kv.1 == n)).map (fun kv => kv.2)

/-- The downstream job names `OnEvent` collects (pkg/job.go lines
354-368): on success the job's `on_success` trigger list followed by the
global one; on failure likewise for `on_error`. -/
def jobsToTrigger (j : JobSpecLite) (s : ScheduleLite) (status : Int) : List String :=
  if status == StatusOK then j.onSuccessTrigger ++ s.onSuccessTrigger
  else j.onErrorTrigger ++ s.onErrorTrigger

/-- Fate of one downstream name in `OnEvent`'s dispatch loop. -/
inductive DispatchOutcome where
  | dispatched (target : String) (withLock : Bool)
  | panicNilDeref (target : String)
deriving Repr, DecidableEq

/-- One iteration of `OnEvent`'s dispatch loop (pkg/job.go lines
382-395): `tj := j.globalSchedule.Jobs[tn]` yields the nil `*JobSpec`
when `tn` is absent from the map (Go zero value, no ok-check in the
source), and the spawned goroutine immediately reads
`tj.DisableConcurrentExecution`, which for nil is a nil-pointer
dereference: a runtime panic that, inside a goroutine, crashes the whole
process. -/
def dispatchDownstream (s : ScheduleLite) (tn : String) : DispatchOutcome :=
  match lookupJob s tn with
  | none => .panicNilDeref tn
  | some tj => .dispatched tn tj.disableConcurrentExecution

/-- The fan-out outcomes for all downstream names of one finished run. -/
def onEventDispatch (j : JobSpecLite) (s : ScheduleLite) (status : Int) :
    List DispatchOutcome :=
  (jobsToTrigger j s status).map (dispatchDownstream s)

/-- `secret.MarshalText` (pkg/job.go lines 60-62): serialization for
display always yields the literal `***`. -/
def secretMarshalText (_v : String) : String := "***"

/-- The env mapping as display serialization renders it: every value
goes through `secret.MarshalText`. -/
def displayEnv (env : List (String × String)) : List (String × String) :=
  env.map (fun kv => (kv.1, secretMarshalText kv.2))

/-- One row of the `log_lines` table created by `InitDB` (columns id,
job_run_id, line_number, timestamp, content, stream, with
UNIQUE(job_run_id, line_number)). -/
structure LogLine where
  id : Nat
  jobRunId : Nat
  lineNumber : Nat
  timestamp : String
  content : String
  stream : String
deriving Repr, DecidableEq

/-- Shallow embedding of `GetLogLines` (persistence layer):
`SELECT ... FROM log_lines WHERE job_run_id = ? AND line_number > ?
ORDER BY line_number ASC`. -/
def GetLogLines (dbLines : List LogLine) (jobRunID : Nat) (afterLineNumber : Nat) :
    List LogLine :=
  List.insertionSort (fun a b => a.lineNumber ≤ b.lineNumber)
    (dbLines.filter (fun l => l.jobRunId == jobRunID && afterLineNumber < l.lineNumber))

/-- SQL `ORDER BY triggered_at DESC` on the `log` table. -/
def orderByTriggeredAtDesc (rows : List RunRow) : List RunRow :=
  List.insertionSort (fun a b => b.triggeredAt ≤ a.triggeredAt) rows

/-- Shallow embedding of `LoadJobRun` (persistence layer): with the
sentinel id `-1`, `SELECT ... WHERE job = ? ORDER BY triggered_at DESC
LIMIT 1` (error when the result set is empty); otherwise
`SELECT ... WHERE id = ?` — the job name does not occur in that query. -/
def LoadJobRun (rows : List RunRow) (jobName : String) (id : Int) : Except String RunRow :=
  if id == -1 then
    match orderByTriggeredAtDesc (rows.filter (fun r => r.job == jobName)) with
    | [] => Except.error "load latest job run: no rows in result set"
    | r :: _ => Except.ok r
  else
    match rows.filter (fun r => (r.id : Int) == id) with
    | [] => Except.error "load job run by id: no rows in result set"
    | r :: _ => Except.ok r

/-- The unique key of a persisted row: (job, triggered_at, triggered_by). -/
def rowKey (r : RunRow) : String × Nat × String := (r.job, r.triggeredAt, r.triggeredBy)

/-- The unique key a run upserts under. -/
def runKey (jr : JobRun) : String × Nat × String := (jr.name, jr.triggeredAt, jr.triggeredBy)

theorem keyMatches_iff (jr : JobRun) (r : RunRow) :
    keyMatches jr r = true ↔ rowKey r = runKey jr := by
  simp [keyMatches, rowKey, runKey, Prod.ext_iff, and_assoc]

theorem execCommandContext_status (e : ExecEnv) (jr : JobRun) (t : String) :
    (execCommandContext e jr t).run.status = some (execStatus e) := by
  cases hcmd : e.command with
  | nil => simp [execCommandContext, execStatus, hcmd]
  | cons a l =>
    cases hs : e.startFails with
    | true => simp [execCommandContext, execStatus, hcmd, hs]
    | false =>
      cases hw : e.wait with
      | clean => simp [execCommandContext, execStatus, hcmd, hs, hw]
      | otherError => simp [execCommandContext, execStatus, hcmd, hs, hw]
      | exitError code =>
        cases hctx : e.ctxCancelled <;>
          simp [execCommandContext, execStatus, hcmd, hs, hw, hctx]

theorem execCommandContext_run_fields (e : ExecEnv) (jr : JobRun) (t : String) :
    (execCommandContext e jr t).run.name = jr.name
    ∧ (execCommandContext e jr t).run.triggeredAt = jr.triggeredAt
    ∧ (execCommandContext e jr t).run.triggeredBy = jr.triggeredBy
    ∧ (execCommandContext e jr t).run.logEntryId = jr.logEntryId := by
  cases hcmd : e.command with
  | nil => simp [execCommandContext, hcmd]
  | cons a l =>
    cases hs : e.startFails with
    | true => simp [execCommandContext, hcmd, hs]
    | false =>
      cases hw : e.wait with
      | clean => simp [execCommandContext, hcmd, hs, hw]
      | otherError => simp [execCommandContext, hcmd, hs, hw]
      | exitError code =>
        cases hctx : e.ctxCancelled <;>
          simp [execCommandContext, hcmd, hs, hw, hctx]

theorem execCommandContext_childEnv (e : ExecEnv) (jr : JobRun) (t : String)
    (h : e.command ≠ []) :
    (execCommandContext e jr t).childEnv
      = e.osEnv ++ e.jobEnv.map (fun kv => kv.1 ++ "=" ++ kv.2) := by
  cases hcmd : e.command with
  | nil => exact absurd hcmd h
  | cons a l =>
    cases hs : e.startFails with
    | true => simp [execCommandContext, hcmd, hs]
    | false =>
      cases hw : e.wait with
      | clean => simp [execCommandContext, hcmd, hs, hw]
      | otherError => simp [execCommandContext, hcmd, hs, hw]
      | exitError code =>
        cases hctx : e.ctxCancelled <;>
          simp [execCommandContext, hcmd, hs, hw, hctx]

theorem execCommandContext_logBuf (e : ExecEnv) (jr : JobRun) (t : String)
    (h : e.command ≠ []) (hs : e.startFails = false) :
    (execCommandContext e jr t).run.logBuf = jr.logBuf ++ e.output := by
  cases hcmd : e.command with
  | nil => exact absurd hcmd h
  | cons a l =>
    cases hw : e.wait with
    | clean => simp [execCommandContext, hcmd, hs, hw]
    | otherError => simp [execCommandContext, hcmd, hs, hw]
    | exitError code =>
      cases hctx : e.ctxCancelled <;>
        simp [execCommandContext, hcmd, hs, hw, hctx]

theorem execCommandContext_duration_clean (e : ExecEnv) (jr : JobRun) (t : String)
    (h : e.command ≠ []) (hs : e.startFails = false) (hw : e.wait = WaitOutcome.clean) :
    (execCommandContext e jr t).run.duration = some (e.now - jr.triggeredAt) := by
  cases hcmd : e.command with
  | nil => exact absurd hcmd h
  | cons a l => simp [execCommandContext, hcmd, hs, hw]

/-- Claim C4: for every run with `status == null`, the executor
`execCommandContext` returns a run whose status is non-null on every
path (empty command, start failure, non-zero exit, cancellation,
unexpected wait error, clean exit), whose duration is set on normal
completion, and whose log buffer holds all captured output (the buffer
`finalize` flushes into the `log` field). -/
theorem exec_contract (e : ExecEnv) (jr : JobRun) (t : String)
    (hpre : jr.status = none) :
    (execCommandContext e jr t).run.status ≠ none
    ∧ (e.command ≠ [] → e.startFails = false → e.wait = WaitOutcome.clean →
        (execCommandContext e jr t).run.duration = some (e.now - jr.triggeredAt))
    ∧ (e.command ≠ [] → e.startFails = false →
        (execCommandContext e jr t).run.logBuf = jr.logBuf ++ e.output) := by
  refine ⟨?_, ?_, ?_⟩
  · rw [execCommandContext_status]
    exact Option.some_ne_none _
  · intro h hs hw
    exact execCommandContext_duration_clean e jr t h hs hw
  · intro h hs
    exact execCommandContext_logBuf e jr t h hs

/-- Input for the C4 witness: a started command exiting cleanly. -/
def envClean : ExecEnv :=
  { command := ["echo", "world"], output := "world\n", wait := .clean, now := 100 }

/-- Witness for claim C4 at a concrete clean execution. -/
theorem exec_contract_witness :
    ({} : JobRun).status = none
    ∧ (execCommandContext envClean {} "manual").run.status ≠ none
    ∧ (execCommandContext envClean {} "manual").run.duration = some 100
    ∧ (execCommandContext envClean {} "manual").run.logBuf = "world\n" := by
  have h := exec_contract envClean {} "manual" rfl
  refine ⟨rfl, h.1, ?_, ?_⟩
  · have := h.2.1 (by simp [envClean]) rfl rfl
    simpa [envClean] using this
  · have := h.2.2 (by simp [envClean]) rfl
    simpa [envClean] using this

/-- Claim C2 (code bug in the source): dispatching a fired hook whose
`trigger_job` names a job absent from the schedule's job map does not
drop the name with a warning — `OnEvent` indexes the map without an
ok-check and the spawned goroutine dereferences the resulting nil
`*JobSpec`, a fatal runtime panic. Evaluated at the failing input: a
parent whose `on_success` names the absent job `ghost`. -/
theorem onEvent_unresolved_name_panics :
    onEventDispatch
      { name := "parent", onSuccessTrigger := ["ghost"] }
      { jobs := [("parent", { name := "parent", onSuccessTrigger := ["ghost"] })] }
      0
    = [DispatchOutcome.panicNilDeref "ghost"] := by
  rfl

/-- Counterexample to claim C3 as stated: at the concrete input of a job
with a database but no `globalSchedule` back-reference, a store failure
while saving the run executes `panic(err)` (pkg/job.go line 109), so the
executor does not always log-and-continue. -/
theorem logToDb_panics_without_schedule :
    logToDb true false (Except.error "insert or update job run: disk I/O error")
      = LogDbOutcome.panicked := by
  rfl

/-- Claim C3 as amended: for a run whose job carries a `globalSchedule`
back-reference (every job of a loaded schedule), a persistence-store
failure during saving is logged as a warning and never panics, so
execution continues. -/
theorem logToDb_never_panics_with_schedule (hasDb : Bool) (r : Except String Unit) :
    logToDb hasDb true r ≠ LogDbOutcome.panicked := by
  cases hasDb with
  | false => simp [logToDb]
  | true => cases r with
    | ok u => simp [logToDb]
    | error e => simp [logToDb]

/-- Claim C9: a secret-tagged environment value serializes for display
as the literal `***` whatever its value, while the child process's
environment receives the raw untagged value built by
`fmt.Sprintf("%s=%s", k, v)`. -/
theorem secret_display_only (e : ExecEnv) (jr : JobRun) (t : String)
    (k v : String) (hc : e.command ≠ []) (hmem : (k, v) ∈ e.jobEnv) :
    secretMarshalText v = "***"
    ∧ (k, "***") ∈ displayEnv e.jobEnv
    ∧ (k ++ "=" ++ v) ∈ (execCommandContext e jr t).childEnv := by
  refine ⟨rfl, ?_, ?_⟩
  · simp only [displayEnv, secretMarshalText, List.mem_map]
    exact ⟨(k, v), hmem, rfl⟩
  · rw [execCommandContext_childEnv e jr t hc]
    refine List.mem_append_right _ ?_
    simp only [List.mem_map]
    exact ⟨(k, v), hmem, rfl⟩

/-- Input for the C9 witness: one secret-tagged env entry. -/
def envSecret : ExecEnv :=
  { command := ["printenv", "API_KEY"], jobEnv := [("API_KEY", "hunter2")] }

/-- Witness for claim C9 at a concrete secret value. -/
theorem secret_display_only_witness :
    secretMarshalText "hunter2" = "***"
    ∧ ("API_KEY", "***") ∈ displayEnv envSecret.jobEnv
    ∧ ("API_KEY" ++ "=" ++ "hunter2")
        ∈ (execCommandContext envSecret {} "manual").childEnv := by
  exact secret_display_only envSecret {} "manual" "API_KEY" "hunter2"
    (by simp [envSecret]) (by simp [envSecret])

/-- Well-formedness the schema guarantees for the `log` table: positive
autoincrement ids and the UNIQUE(job, triggered_at, triggered_by)
constraint. -/
def dbWF (db : RunsDB) : Prop :=
  0 < db.nextId ∧ (∀ r ∈ db.rows, 0 < r.id)
    ∧ db.rows.Pairwise (fun a b => rowKey a ≠ rowKey b)

theorem keyMatches_update (jr : JobRun) (d : Option Nat) (s : Option Int)
    (m : String) (ir : Nat) (r : RunRow) :
    keyMatches jr { r with duration := d, status := s, message := m, isRunning := ir }
      = keyMatches jr r := rfl

theorem filter_key_unique {p : RunRow → Bool} {K : String × Nat × String}
    (hkey : ∀ r, p r = true ↔ rowKey r = K) :
    ∀ (rows : List RunRow), rows.Pairwise (fun a b => rowKey a ≠ rowKey b) →
      ∀ r0, r0 ∈ rows → p r0 = true → rows.filter p = [r0] := by
  intro rows
  induction rows with
  | nil =>
    intro _ r0 h
    exact absurd h (List.not_mem_nil r0)
  | cons a l ih =>
    intro hpw r0 hmem hp
    rcases List.pairwise_cons.mp hpw with ⟨ha, hl⟩
    rcases List.mem_cons.mp hmem with heq | hmem'
    · subst heq
      have hfl : l.filter p = [] := by
        refine List.filter_eq_nil_iff.mpr ?_
        intro x hx hpx
        exact (ha x hx) (((hkey r0).mp hp).trans ((hkey x).mp hpx).symm)
      simp [List.filter_cons, hp, hfl]
    · have hpa : p a = false := by
        cases hc : p a with
        | false => rfl
        | true =>
          exact absurd (((hkey a).mp hc).trans ((hkey r0).mp hp).symm)
            (ha r0 hmem')
      have := ih hl r0 hmem' hp
      simp [List.filter_cons, hpa, this]

theorem filter_key_map_update (jr : JobRun) (f : RunRow → RunRow)
    (hf : ∀ r, keyMatches jr (f r) = keyMatches jr r) :
    ∀ rows : List RunRow,
      (rows.map f).filter (keyMatches jr) = (rows.filter (keyMatches jr)).map f := by
  intro rows
  induction rows with
  | nil => rfl
  | cons a l ih =>
    cases hpa : keyMatches jr a with
    | true => simp [List.filter_cons, hf, hpa, ih]
    | false => simp [List.filter_cons, hf, hpa, ih]

theorem keyMatches_self (jr : JobRun) (d : Option Nat) (s : Option Int)
    (m : String) (ir : Nat) (i : Nat) :
    keyMatches jr { id := i, job := jr.name, triggeredAt := jr.triggeredAt,
                    triggeredBy := jr.triggeredBy, duration := d, status := s,
                    message := m, isRunning := ir } = true := by
  simp [keyMatches]

/-- Claim C6: `InsertOrUpdateJobRun` derives `is_running = 1` exactly
when `status == null` (and `0` otherwise), inserts a new row or updates
the row matched by the unique key (job, triggered_at, triggered_by)
leaving unrelated rows in place, fills the run's `log_entry_id` with a
non-zero id (from the last-inserted id or by lookup), and preserves the
invariant `status == null ↔ is_running = 1` across every upsert. -/
theorem upsert_run_contract (db : RunsDB) (jr : JobRun) (hwf : dbWF db) :
    (((InsertOrUpdateJobRun db jr).1.rows.filter (keyMatches jr)).map
        (fun r => (r.isRunning, r.status))
      = [((if jr.status = none then 1 else 0), jr.status)])
    ∧ ((∃ r ∈ db.rows, keyMatches jr r = true) →
        (InsertOrUpdateJobRun db jr).1.rows.length = db.rows.length)
    ∧ ((∀ r ∈ db.rows, keyMatches jr r = false) →
        (InsertOrUpdateJobRun db jr).1.rows.length = db.rows.length + 1)
    ∧ (∀ r ∈ db.rows, keyMatches jr r = false → r ∈ (InsertOrUpdateJobRun db jr).1.rows)
    ∧ (InsertOrUpdateJobRun db jr).2.logEntryId ≠ 0
    ∧ ((∀ r ∈ db.rows, (r.isRunning = 1 ↔ r.status = none)) →
        ∀ r ∈ (InsertOrUpdateJobRun db jr).1.rows, (r.isRunning = 1 ↔ r.status = none)) := by
  rcases hwf with ⟨hnext, hids, hpw⟩
  cases hfind : db.rows.find? (keyMatches jr) with
  | none =>
    have hnone : ∀ r ∈ db.rows, keyMatches jr r = false := by
      intro r hr
      have := List.find?_eq_none.mp hfind r hr
      cases hc : keyMatches jr r with
      | false => rfl
      | true => exact absurd hc this
    have hfilter : db.rows.filter (keyMatches jr) = [] :=
      List.filter_eq_nil_iff.mpr (by intro a ha h; rw [hnone a ha] at h; exact absurd h (by simp))
    refine ⟨?_, ?_, ?_, ?_, ?_, ?_⟩
    · simp [InsertOrUpdateJobRun, hfind, List.filter_append, hfilter,
        List.filter_cons, keyMatches_self]
    · intro ⟨r, hr, hk⟩
      rw [hnone r hr] at hk
      exact absurd hk (by simp)
    · intro _
      simp [InsertOrUpdateJobRun, hfind]
    · intro r hr _
      simp [InsertOrUpdateJobRun, hfind]
      exact Or.inl hr
    · cases hid : jr.logEntryId == 0 with
      | true =>
        simp [InsertOrUpdateJobRun, hfind, hid]
        omega
      | false =>
        simp [InsertOrUpdateJobRun, hfind, hid]
        simpa using (beq_eq_false_iff_ne.mp hid)
    · intro hinv r hr
      simp only [InsertOrUpdateJobRun, hfind, List.mem_append, List.mem_singleton] at hr
      rcases hr with hr | hr
      · exact hinv r hr
      · subst hr
        cases hs : jr.status with
        | none => simp [hs]
        | some v => simp [hs]
  | some r0 =>
    have hp0 : keyMatches jr r0 = true := List.find?_some hfind
    have hmem0 : r0 ∈ db.rows := List.mem_of_find?_eq_some hfind
    have hfilter : db.rows.filter (keyMatches jr) = [r0] :=
      filter_key_unique (fun r => keyMatches_iff jr r) db.rows hpw r0 hmem0 hp0
    have hupdkey : ∀ r, keyMatches jr (updRow jr r) = keyMatches jr r := by
      intro r
      cases hc : keyMatches jr r with
      | true => simp [updRow, hc, keyMatches_update]
      | false => simp [updRow, hc]
    have hrows : (InsertOrUpdateJobRun db jr).1.rows = db.rows.map (updRow jr) := by
      simp [InsertOrUpdateJobRun, hfind]
    refine ⟨?_, ?_, ?_, ?_, ?_, ?_⟩
    · rw [hrows, filter_key_map_update jr _ hupdkey, hfilter]
      simp [updRow, hp0]
    · intro _
      rw [hrows]
      simp
    · intro hall
      rw [hall r0 hmem0] at hp0
      exact absurd hp0 (by simp)
    · intro r hr hk
      rw [hrows]
      refine List.mem_map.mpr ⟨r, hr, ?_⟩
      simp [updRow, hk]
    · cases hid : jr.logEntryId == 0 with
      | false =>
        simp [InsertOrUpdateJobRun, hfind, hid]
        simpa using (beq_eq_false_iff_ne.mp hid)
      | true =>
        by_cases hlast : db.lastInsertRowid > 0
        · simp [InsertOrUpdateJobRun, hfind, hid, hlast]
          omega
        · have hfind2 : ∃ r1,
              (db.rows.map (updRow jr)).find? (keyMatches jr) = some r1 ∧ 0 < r1.id := by
            have hmem : updRow jr r0 ∈ db.rows.map (updRow jr) :=
              List.mem_map_of_mem _ hmem0
            have hsome : ((db.rows.map (updRow jr)).find? (keyMatches jr)).isSome = true := by
              refine List.find?_isSome.mpr ⟨_, hmem, ?_⟩
              rw [hupdkey r0]
              exact hp0
            rcases Option.isSome_iff_exists.mp hsome with ⟨r1, hr1⟩
            refine ⟨r1, hr1, ?_⟩
            have hr1mem := List.mem_of_find?_eq_some hr1
            rcases List.mem_map.mp hr1mem with ⟨r2, hr2, hr2eq⟩
            have hpos : 0 < r2.id := hids r2 hr2
            subst hr2eq
            cases hc : keyMatches jr r2 with
            | true => simpa [updRow, hc] using hpos
            | false => simpa [updRow, hc] using hpos
          rcases hfind2 with ⟨r1, hr1, hr1pos⟩
          simp [InsertOrUpdateJobRun, hfind, hid, hlast, hr1]
          omega
    · intro hinv r hr
      rw [hrows] at hr
      rcases List.mem_map.mp hr with ⟨r2, hr2, hr2eq⟩
      subst hr2eq
      cases hc : keyMatches jr r2 with
      | false => simpa [updRow, hc] using hinv r2 hr2
      | true =>
        cases hs : jr.status with
        | none => simp [updRow, hc, hs]
        | some v => simp [updRow, hc, hs]

/-- A completed run for the C6 witness. -/
def jrDone : JobRun :=
  { name := "test_job", triggeredAt := 10, triggeredBy := "manual",
    status := some 0, logEntryId := 1 }

/-- The in-flight row the C6 witness completes. -/
def rowOne : RunRow :=
  { id := 1, job := "test_job", triggeredAt := 10, triggeredBy := "manual",
    duration := none, status := none, message := "", isRunning := 1 }

/-- A one-row well-formed database for the C6 witness. -/
def dbOne : RunsDB := { rows := [rowOne], nextId := 2, lastInsertRowid := 1 }

/-- Witness for claim C6: updating the existing in-flight row with a
completed status flips `is_running` to 0 and keeps a single row. -/
theorem upsert_run_contract_witness :
    dbWF dbOne
    ∧ ((InsertOrUpdateJobRun dbOne jrDone).1.rows.filter (keyMatches jrDone)).map
        (fun r => (r.isRunning, r.status)) = [(0, some 0)]
    ∧ (InsertOrUpdateJobRun dbOne jrDone).1.rows.length = 1 := by
  have hwf : dbWF dbOne := by
    refine ⟨by simp [dbOne], ?_, ?_⟩
    · intro r hr
      simp [dbOne] at hr
      subst hr
      simp [rowOne]
    · simp [dbOne]
  have h := upsert_run_contract dbOne jrDone hwf
  refine ⟨hwf, ?_, ?_⟩
  · simpa [jrDone] using h.1
  · have := h.2.1 ⟨rowOne, by simp [dbOne], by simp [keyMatches, rowOne, jrDone]⟩
    simpa [dbOne] using this

theorem upsert_snd_fields (db : RunsDB) (jr : JobRun) :
    (InsertOrUpdateJobRun db jr).2.name = jr.name
    ∧ (InsertOrUpdateJobRun db jr).2.triggeredAt = jr.triggeredAt
    ∧ (InsertOrUpdateJobRun db jr).2.triggeredBy = jr.triggeredBy
    ∧ (InsertOrUpdateJobRun db jr).2.status = jr.status
    ∧ (InsertOrUpdateJobRun db jr).2.log = jr.log
    ∧ (InsertOrUpdateJobRun db jr).2.logBuf = jr.logBuf := by
  cases hfind : db.rows.find? (keyMatches jr) with
  | none =>
    cases hid : jr.logEntryId == 0 <;> simp [InsertOrUpdateJobRun, hfind, hid]
  | some r0 =>
    cases hid : jr.logEntryId == 0 with
    | false => simp [InsertOrUpdateJobRun, hfind, hid]
    | true =>
      by_cases hlast : db.lastInsertRowid > 0
      · simp [InsertOrUpdateJobRun, hfind, hid, hlast]
      · cases hf2 : (db.rows.map (updRow jr)).find? (keyMatches jr) <;>
          simp [InsertOrUpdateJobRun, hfind, hid, hlast, hf2]

theorem finalize_status (db : RunsDB) (jr : JobRun) :
    (finalize db jr).2.status = jr.status := by
  have h := upsert_snd_fields db (flushLogBuffer jr)
  simp only [finalize]
  rw [h.2.2.2.1]
  rfl

theorem finalize_runKey (db : RunsDB) (jr : JobRun) :
    runKey (finalize db jr).2 = runKey jr := by
  have h := upsert_snd_fields db (flushLogBuffer jr)
  simp only [finalize, runKey]
  rw [h.1, h.2.1, h.2.2.1]
  rfl

theorem upsert_single_row (db : RunsDB) (jr : JobRun) (r0 : RunRow)
    (hdb : db.rows = [r0]) (hk : keyMatches jr r0 = true) :
    (InsertOrUpdateJobRun db jr).1.rows
      = [{ r0 with duration := jr.duration, status := jr.status, message := jr.log,
                   isRunning := if jr.status = none then 1 else 0 }] := by
  have hfind : db.rows.find? (keyMatches jr) = some r0 := by
    rw [hdb]
    simp [List.find?_cons, hk]
  simp [InsertOrUpdateJobRun, hfind, hdb, updRow, hk]

theorem finalize_single_row (db : RunsDB) (jr : JobRun) (r0 : RunRow)
    (hdb : db.rows = [r0]) (hk : keyMatches jr r0 = true) :
    (finalize db jr).1.rows
      = [{ r0 with duration := jr.duration, status := jr.status, message := jr.logBuf,
                   isRunning := if jr.status = none then 1 else 0 }] :=
  upsert_single_row db (flushLogBuffer jr) r0 hdb hk

theorem keyMatches_congr (a b : JobRun) (r : RunRow) (h : runKey a = runKey b) :
    keyMatches a r = keyMatches b r := by
  simp only [runKey, Prod.mk.injEq] at h
  simp [keyMatches, h.1, h.2.1, h.2.2]

theorem rowKey_update (r0 : RunRow) (d : Option Nat) (s : Option Int)
    (m : String) (ir : Nat) :
    rowKey { r0 with duration := d, status := s, message := m, isRunning := ir }
      = rowKey r0 := rfl

theorem execCommandContext_runKey (e : ExecEnv) (jr : JobRun) (t : String) :
    runKey (execCommandContext e jr t).run = runKey jr := by
  have h := execCommandContext_run_fields e jr t
  simp [runKey, h.1, h.2.1, h.2.2.1]

/-- The state after one non-cancelled iteration of the retry loop:
executor call with the `retryTrigger` argument, then `finalize`, with
the invocation recorded. -/
def stepState (j : RetryJob) (trigger : String) (tries : Nat) (st : RetryState) :
    RetryState :=
  let res := execCommandContext (j.attemptEnv tries) st.jr (retryTrigger trigger tries)
  let fin := finalize st.db res.run
  { db := fin.1, jr := fin.2,
    invocations := st.invocations ++ [(retryTrigger trigger tries, res.run.status)] }

theorem stepState_status (j : RetryJob) (trigger : String) (tries : Nat)
    (st : RetryState) :
    (stepState j trigger tries st).jr.status = some (execStatus (j.attemptEnv tries)) := by
  simp only [stepState]
  rw [finalize_status, execCommandContext_status]

theorem stepState_runKey (j : RetryJob) (trigger : String) (tries : Nat)
    (st : RetryState) :
    runKey (stepState j trigger tries st).jr = runKey st.jr := by
  simp only [stepState]
  rw [finalize_runKey, execCommandContext_runKey]

theorem retryLoop_step_ctxBefore (j : RetryJob) (trigger : String) (fuel tries : Nat)
    (st : RetryState) (hcb : j.ctxBefore tries = true) :
    retryLoop j trigger (fuel + 1) tries st
      = { st with
          db := (finalize st.db { st.jr with
            log := "Job cancelled due to scheduler shutdown",
            status := some StatusError }).1,
          jr := (finalize st.db { st.jr with
            log := "Job cancelled due to scheduler shutdown",
            status := some StatusError }).2 } := by
  simp [retryLoop, hcb]

theorem retryLoop_step_success (j : RetryJob) (trigger : String) (fuel tries : Nat)
    (st : RetryState) (hcb : j.ctxBefore tries = false)
    (hsucc : execStatus (j.attemptEnv tries) = 0) :
    retryLoop j trigger (fuel + 1) tries st = stepState j trigger tries st := by
  have hstat : (finalize st.db
      (execCommandContext (j.attemptEnv tries) st.jr (retryTrigger trigger tries)).run).2.status
      = some (execStatus (j.attemptEnv tries)) := by
    rw [finalize_status, execCommandContext_status]
  have hbeq : ((finalize st.db
      (execCommandContext (j.attemptEnv tries) st.jr (retryTrigger trigger tries)).run).2.status
      == some StatusOK) = true := by
    rw [hstat, hsucc]
    simp [StatusOK]
  simp [retryLoop, hcb, hbeq, stepState]

theorem retryLoop_step_noCancel (j : RetryJob) (trigger : String) (fuel tries : Nat)
    (st : RetryState) (hcb : j.ctxBefore tries = false)
    (hfail : execStatus (j.attemptEnv tries) ≠ 0)
    (hcs : j.cancelSleep (tries + 1) = false) :
    retryLoop j trigger (fuel + 1) tries st
      = retryLoop j trigger fuel (tries + 1) (stepState j trigger tries st) := by
  have hstat : (finalize st.db
      (execCommandContext (j.attemptEnv tries) st.jr (retryTrigger trigger tries)).run).2.status
      = some (execStatus (j.attemptEnv tries)) := by
    rw [finalize_status, execCommandContext_status]
  have hbeq : ((finalize st.db
      (execCommandContext (j.attemptEnv tries) st.jr (retryTrigger trigger tries)).run).2.status
      == some StatusOK) = false := by
    rw [hstat]
    refine beq_eq_false_iff_ne.mpr ?_
    simpa [StatusOK] using hfail
  simp [retryLoop, hcb, hbeq, hcs, stepState]

theorem retryLoop_step_cancelSleep (j : RetryJob) (trigger : String) (fuel tries : Nat)
    (st : RetryState) (hcb : j.ctxBefore tries = false)
    (hfail : execStatus (j.attemptEnv tries) ≠ 0)
    (hcs : j.cancelSleep (tries + 1) = true) :
    retryLoop j trigger (fuel + 1) tries st
      = { stepState j trigger tries st with
          jr := { (stepState j trigger tries st).jr with
            log := (stepState j trigger tries st).jr.log
              ++ "\nJob cancelled during retry timeout",
            status := some StatusError } } := by
  have hstat : (finalize st.db
      (execCommandContext (j.attemptEnv tries) st.jr (retryTrigger trigger tries)).run).2.status
      = some (execStatus (j.attemptEnv tries)) := by
    rw [finalize_status, execCommandContext_status]
  have hbeq : ((finalize st.db
      (execCommandContext (j.attemptEnv tries) st.jr (retryTrigger trigger tries)).run).2.status
      == some StatusOK) = false := by
    rw [hstat]
    refine beq_eq_false_iff_ne.mpr ?_
    simpa [StatusOK] using hfail
  simp [retryLoop, hcb, hbeq, hcs, stepState]

theorem retryLoop_single_row (j : RetryJob) (trigger : String) :
    ∀ (fuel tries : Nat) (st : RetryState) (r0 : RunRow),
      st.db.rows = [r0] → keyMatches st.jr r0 = true →
      ∃ r1, (retryLoop j trigger fuel tries st).db.rows = [r1]
        ∧ r1.job = r0.job ∧ r1.triggeredAt = r0.triggeredAt
        ∧ r1.triggeredBy = r0.triggeredBy := by
  intro fuel
  induction fuel with
  | zero =>
    intro tries st r0 h1 _
    exact ⟨r0, h1, rfl, rfl, rfl⟩
  | succ f ih =>
    intro tries st r0 h1 h2
    cases hcb : j.ctxBefore tries with
    | true =>
      rw [retryLoop_step_ctxBefore j trigger f tries st hcb]
      have hk2 : keyMatches { st.jr with
          log := "Job cancelled due to scheduler shutdown",
          status := some StatusError } r0 = true := h2
      exact ⟨_, finalize_single_row st.db _ r0 h1 hk2, rfl, rfl, rfl⟩
    | false =>
      have hk2 : keyMatches
          (execCommandContext (j.attemptEnv tries) st.jr (retryTrigger trigger tries)).run
          r0 = true := by
        rw [keyMatches_congr _ st.jr r0 (execCommandContext_runKey _ _ _)]
        exact h2
      have hrows := finalize_single_row st.db _ r0 h1 hk2
      by_cases hsucc : execStatus (j.attemptEnv tries) = 0
      · rw [retryLoop_step_success j trigger f tries st hcb hsucc]
        exact ⟨_, hrows, rfl, rfl, rfl⟩
      · by_cases hcs : j.cancelSleep (tries + 1) = true
        · rw [retryLoop_step_cancelSleep j trigger f tries st hcb hsucc hcs]
          exact ⟨_, hrows, rfl, rfl, rfl⟩
        · have hcs' : j.cancelSleep (tries + 1) = false := by
            revert hcs
            cases j.cancelSleep (tries + 1) <;> simp
          rw [retryLoop_step_noCancel j trigger f tries st hcb hsucc hcs']
          have hkey1 : keyMatches (stepState j trigger tries st).jr
              { r0 with
                duration := (execCommandContext (j.attemptEnv tries) st.jr
                  (retryTrigger trigger tries)).run.duration,
                status := (execCommandContext (j.attemptEnv tries) st.jr
                  (retryTrigger trigger tries)).run.status,
                message := (execCommandContext (j.attemptEnv tries) st.jr
                  (retryTrigger trigger tries)).run.logBuf,
                isRunning := if (execCommandContext (j.attemptEnv tries) st.jr
                  (retryTrigger trigger tries)).run.status = none then 1 else 0 } = true := by
            rw [keyMatches_congr _ st.jr _ (stepState_runKey j trigger tries st)]
            exact h2
          obtain ⟨r2, hr2, hg1, hg2, hg3⟩ :=
            ih (tries + 1) (stepState j trigger tries st) _ hrows hkey1
          exact ⟨r2, hr2, hg1, hg2, hg3⟩

theorem retryLoop_row_status (j : RetryJob) (trigger : String)
    (hcb : ∀ n, j.ctxBefore n = false) (hcs : ∀ n, j.cancelSleep n = false) :
    ∀ (fuel tries : Nat) (st : RetryState) (r0 : RunRow),
      st.db.rows = [r0] → keyMatches st.jr r0 = true → r0.status = st.jr.status →
      ∃ r1, (retryLoop j trigger fuel tries st).db.rows = [r1]
        ∧ r1.status = (retryLoop j trigger fuel tries st).jr.status := by
  intro fuel
  induction fuel with
  | zero =>
    intro tries st r0 h1 _ h3
    exact ⟨r0, h1, h3⟩
  | succ f ih =>
    intro tries st r0 h1 h2 _
    have hk2 : keyMatches
        (execCommandContext (j.attemptEnv tries) st.jr (retryTrigger trigger tries)).run
        r0 = true := by
      rw [keyMatches_congr _ st.jr r0 (execCommandContext_runKey _ _ _)]
      exact h2
    have hrows := finalize_single_row st.db _ r0 h1 hk2
    by_cases hsucc : execStatus (j.attemptEnv tries) = 0
    · rw [retryLoop_step_success j trigger f tries st (hcb tries) hsucc]
      refine ⟨_, hrows, ?_⟩
      rw [stepState_status]
      exact execCommandContext_status _ _ _
    · rw [retryLoop_step_noCancel j trigger f tries st (hcb tries) hsucc (hcs (tries + 1))]
      have hkey1 : keyMatches (stepState j trigger tries st).jr
          { r0 with
            duration := (execCommandContext (j.attemptEnv tries) st.jr
              (retryTrigger trigger tries)).run.duration,
            status := (execCommandContext (j.attemptEnv tries) st.jr
              (retryTrigger trigger tries)).run.status,
            message := (execCommandContext (j.attemptEnv tries) st.jr
              (retryTrigger trigger tries)).run.logBuf,
            isRunning := if (execCommandContext (j.attemptEnv tries) st.jr
              (retryTrigger trigger tries)).run.status = none then 1 else 0 } = true := by
        rw [keyMatches_congr _ st.jr _ (stepState_runKey j trigger tries st)]
        exact h2
      have hst1 : ({ r0 with
            duration := (execCommandContext (j.attemptEnv tries) st.jr
              (retryTrigger trigger tries)).run.duration,
            status := (execCommandContext (j.attemptEnv tries) st.jr
              (retryTrigger trigger tries)).run.status,
            message := (execCommandContext (j.attemptEnv tries) st.jr
              (retryTrigger trigger tries)).run.logBuf,
            isRunning := if (execCommandContext (j.attemptEnv tries) st.jr
              (retryTrigger trigger tries)).run.status = none then 1 else 0 } : RunRow).status
          = (stepState j trigger tries st).jr.status := by
        rw [stepState_status]
        exact execCommandContext_status _ _ _
      exact ih (tries + 1) (stepState j trigger tries st) _ hrows hkey1 hst1

theorem retryLoop_allFail (j : RetryJob) (trigger : String)
    (hcb : ∀ n, j.ctxBefore n = false) (hcs : ∀ n, j.cancelSleep n = false)
    (hfail : ∀ n, execStatus (j.attemptEnv n) ≠ 0) :
    ∀ (f tries : Nat) (st : RetryState),
      (retryLoop j trigger (f + 1) tries st).invocations
          = st.invocations ++ (List.range' tries (f + 1)).map
              (fun n => (retryTrigger trigger n, some (execStatus (j.attemptEnv n))))
      ∧ (retryLoop j trigger (f + 1) tries st).jr.status
          = some (execStatus (j.attemptEnv (tries + f))) := by
  intro f
  induction f with
  | zero =>
    intro tries st
    rw [retryLoop_step_noCancel j trigger 0 tries st (hcb tries) (hfail tries)
      (hcs (tries + 1))]
    constructor
    · show (stepState j trigger tries st).invocations = _
      simp [stepState, List.range'_succ, execCommandContext_status]
    · show (stepState j trigger tries st).jr.status = _
      rw [stepState_status]
      simp
  | succ f ih =>
    intro tries st
    rw [retryLoop_step_noCancel j trigger (f + 1) tries st (hcb tries) (hfail tries)
      (hcs (tries + 1))]
    obtain ⟨h1, h2⟩ := ih (tries + 1) (stepState j trigger tries st)
    constructor
    · rw [h1]
      simp [stepState, List.range'_succ, execCommandContext_status]
    · rw [h2]
      have heq : tries + 1 + f = tries + (f + 1) := by omega
      rw [heq]

theorem retryLoop_firstSuccess (j : RetryJob) (trigger : String)
    (hcb : ∀ n, j.ctxBefore n = false) (hcs : ∀ n, j.cancelSleep n = false) :
    ∀ (k fuel tries : Nat) (st : RetryState), k < fuel →
      (∀ m, m < k → execStatus (j.attemptEnv (tries + m)) ≠ 0) →
      execStatus (j.attemptEnv (tries + k)) = 0 →
      (retryLoop j trigger fuel tries st).invocations
          = st.invocations ++ (List.range' tries (k + 1)).map
              (fun n => (retryTrigger trigger n, some (execStatus (j.attemptEnv n))))
      ∧ (retryLoop j trigger fuel tries st).jr.status = some 0 := by
  intro k
  induction k with
  | zero =>
    intro fuel tries st hk hfail hsucc
    cases fuel with
    | zero => omega
    | succ f =>
      have hs0 : execStatus (j.attemptEnv tries) = 0 := by simpa using hsucc
      rw [retryLoop_step_success j trigger f tries st (hcb tries) hs0]
      constructor
      · simp [stepState, List.range'_succ, execCommandContext_status]
      · rw [stepState_status, hs0]
  | succ k ih =>
    intro fuel tries st hk hfail hsucc
    cases fuel with
    | zero => omega
    | succ f =>
      have hf0 : execStatus (j.attemptEnv tries) ≠ 0 := by
        have := hfail 0 (by omega)
        simpa using this
      rw [retryLoop_step_noCancel j trigger f tries st (hcb tries) hf0 (hcs (tries + 1))]
      have hk' : k < f := by omega
      have hfail' : ∀ m, m < k → execStatus (j.attemptEnv (tries + 1 + m)) ≠ 0 := by
        intro m hm
        have h := hfail (m + 1) (by omega)
        have heq : tries + (m + 1) = tries + 1 + m := by omega
        rw [heq] at h
        exact h
      have hsucc' : execStatus (j.attemptEnv (tries + 1 + k)) = 0 := by
        have heq : tries + (k + 1) = tries + 1 + k := by omega
        rw [heq] at hsucc
        exact hsucc
      obtain ⟨h1, h2⟩ := ih f (tries + 1) (stepState j trigger tries st) hk' hfail' hsucc'
      constructor
      · rw [h1]
        simp [stepState, List.range'_succ, execCommandContext_status]
      · exact h2

/-- The row `setup` inserts into an empty database. -/
def setupRowOf (j : RetryJob) (trigger : String) : RunRow :=
  { id := 1, job := j.name, triggeredAt := j.now, triggeredBy := trigger,
    duration := none, status := none, message := "", isRunning := 1 }

theorem setup_emptyDB (j : RetryJob) (trigger : String) :
    setup j emptyDB trigger
      = ({ rows := [setupRowOf j trigger], nextId := 2, lastInsertRowid := 1 },
         { name := j.name, triggeredAt := j.now, triggeredBy := trigger,
           status := none, logEntryId := 1 }) := by
  rfl

/-- Ambient behaviour of a command that always exits with code 2. -/
def envExit2 : ExecEnv :=
  { command := ["sh", "-c", "exit 2"], output := "boom\n",
    wait := .exitError 2, now := 100 }

/-- A job with one retry whose command fails on both attempts, never
cancelled. -/
def jobFailTwice : RetryJob :=
  { name := "flaky", retries := 1, now := 7, attemptEnv := fun _ => envExit2,
    ctxBefore := fun _ => false, cancelSleep := fun _ => false }

/-- A job with two retries whose command fails on all attempts, never
cancelled. -/
def jobAlwaysFails : RetryJob :=
  { name := "fail", retries := 2, now := 7, attemptEnv := fun _ => envExit2,
    ctxBefore := fun _ => false, cancelSleep := fun _ => false }

/-- Counterexample to claim C1 as stated: with retries = 1 and a command
failing on both attempts, both executor invocations do happen (trigger
arguments `manual` and `manual[retry=1]`), but the run's `TriggeredBy`
is never modified, so both finalizations upsert the same unique key and
the database ends with one row keyed `manual` — not R+1 = 2 rows with
distinct `triggered_by` values. -/
theorem retry_attempts_share_triggered_by_row :
    (execCommandWithRetryContext jobFailTwice emptyDB "manual").invocations.map Prod.fst
        = ["manual", "manual[retry=1]"]
    ∧ (execCommandWithRetryContext jobFailTwice emptyDB "manual").db.rows.map
        (fun r => r.triggeredBy) = ["manual"]
    ∧ ¬ (execCommandWithRetryContext jobFailTwice emptyDB "manual").db.rows.length = 2 := by
  refine ⟨?_, ?_, ?_⟩ <;> decide

/-- Claim C1 as amended: one invocation of the retry wrapper persists
exactly one row, keyed by (name, triggered_at, the original trigger);
retry attempts update that row in place rather than forming distinct
rows, because the `[retry=n]` suffix is only passed as the executor's
trigger argument and never stored into `triggered_by`. (Consequently no
two persisted runs of one invocation share a key — there is only one.) -/
theorem retry_persists_single_row (j : RetryJob) (trigger : String) :
    ∃ r, (execCommandWithRetryContext j emptyDB trigger).db.rows = [r]
      ∧ r.job = j.name ∧ r.triggeredAt = j.now ∧ r.triggeredBy = trigger := by
  have hdef : execCommandWithRetryContext j emptyDB trigger
      = retryLoop j trigger (j.retries + 1) 0
          { db := (setup j emptyDB trigger).1, jr := (setup j emptyDB trigger).2,
            invocations := [] } := rfl
  rw [hdef]
  obtain ⟨r1, hr1, hf1, hf2, hf3⟩ := retryLoop_single_row j trigger (j.retries + 1) 0
    { db := (setup j emptyDB trigger).1, jr := (setup j emptyDB trigger).2,
      invocations := [] } (setupRowOf j trigger)
    (by rw [setup_emptyDB]) (by rw [setup_emptyDB]; simp [keyMatches, setupRowOf])
  exact ⟨r1, hr1, by rw [hf1]; rfl, by rw [hf2]; rfl, by rw [hf3]; rfl⟩

/-- Claim C5: for a job with retries = R run without cancellation, (a)
when the command fails on every attempt, exactly R+1 executor
invocations occur, attempt n passing `retryTrigger trigger n` as the
trigger argument, and the single persisted row carries the last
attempt's (non-zero) status; (b) the loop stops right after the first
attempt returning status 0; (c) the trigger argument is the original
trigger for attempt 0 and `<trigger>[retry=n]` for attempt n > 0. -/
theorem retry_budget (j : RetryJob) (trigger : String)
    (hcb : ∀ n, j.ctxBefore n = false) (hcs : ∀ n, j.cancelSleep n = false) :
    ((∀ n, execStatus (j.attemptEnv n) ≠ 0) →
      (execCommandWithRetryContext j emptyDB trigger).invocations
          = (List.range (j.retries + 1)).map
              (fun n => (retryTrigger trigger n, some (execStatus (j.attemptEnv n))))
      ∧ (execCommandWithRetryContext j emptyDB trigger).invocations.length
          = j.retries + 1
      ∧ (∃ r, (execCommandWithRetryContext j emptyDB trigger).db.rows = [r]
          ∧ r.status = some (execStatus (j.attemptEnv j.retries))))
    ∧ (∀ k, k ≤ j.retries → (∀ m, m < k → execStatus (j.attemptEnv m) ≠ 0) →
        execStatus (j.attemptEnv k) = 0 →
        (execCommandWithRetryContext j emptyDB trigger).invocations
            = (List.range (k + 1)).map
                (fun n => (retryTrigger trigger n, some (execStatus (j.attemptEnv n))))
        ∧ (execCommandWithRetryContext j emptyDB trigger).jr.status = some 0)
    ∧ retryTrigger trigger 0 = trigger
    ∧ (∀ n, 0 < n →
        retryTrigger trigger n = trigger ++ "[retry=" ++ toString n ++ "]") := by
  have hdef : execCommandWithRetryContext j emptyDB trigger
      = retryLoop j trigger (j.retries + 1) 0
          { db := (setup j emptyDB trigger).1, jr := (setup j emptyDB trigger).2,
            invocations := [] } := rfl
  refine ⟨?_, ?_, ?_, ?_⟩
  · intro hfail
    obtain ⟨h1, h2⟩ := retryLoop_allFail j trigger hcb hcs hfail j.retries 0
      { db := (setup j emptyDB trigger).1, jr := (setup j emptyDB trigger).2,
        invocations := [] }
    obtain ⟨r1, hr1, hs1⟩ := retryLoop_row_status j trigger hcb hcs (j.retries + 1) 0
      { db := (setup j emptyDB trigger).1, jr := (setup j emptyDB trigger).2,
        invocations := [] } (setupRowOf j trigger)
      (by rw [setup_emptyDB]) (by rw [setup_emptyDB]; simp [keyMatches, setupRowOf])
      (by rw [setup_emptyDB]; rfl)
    refine ⟨?_, ?_, ?_⟩
    · rw [hdef, h1]
      simp [List.range_eq_range']
    · rw [hdef, h1]
      simp [List.length_range']
    · refine ⟨r1, by rw [hdef]; exact hr1, ?_⟩
      rw [hs1, h2]
      simp
  · intro k hk hfailm hsucck
    obtain ⟨h1, h2⟩ := retryLoop_firstSuccess j trigger hcb hcs k (j.retries + 1) 0
      { db := (setup j emptyDB trigger).1, jr := (setup j emptyDB trigger).2,
        invocations := [] } (by omega) (by simpa using hfailm) (by simpa using hsucck)
    constructor
    · rw [hdef, h1]
      simp [List.range_eq_range']
    · rw [hdef]
      exact h2
  · simp [retryTrigger]
  · intro n hn
    have hne : (n == 0) = false := by
      refine beq_eq_false_iff_ne.mpr ?_
      omega
    simp [retryTrigger, hne]

/-- Witness for claim C5 at a job with retries = 2 always exiting 2. -/
theorem retry_budget_witness :
    (execCommandWithRetryContext jobAlwaysFails emptyDB "cron").invocations.length = 3
    ∧ (execCommandWithRetryContext jobAlwaysFails emptyDB "cron").invocations.map Prod.fst
        = ["cron", "cron[retry=1]", "cron[retry=2]"]
    ∧ (∃ r, (execCommandWithRetryContext jobAlwaysFails emptyDB "cron").db.rows = [r]
        ∧ r.status = some 2) := by
  have h := (retry_budget jobAlwaysFails "cron" (fun n => rfl) (fun n => rfl)).1
    (by intro n; show execStatus envExit2 ≠ 0; decide)
  refine ⟨h.2.1, ?_, ?_⟩
  · rw [h.1]
    decide
  · obtain ⟨r, hr, hs⟩ := h.2.2
    refine ⟨r, hr, ?_⟩
    rw [hs]
    decide

/-- Well-formedness the schema guarantees for the `log_lines` table:
UNIQUE(job_run_id, line_number). -/
def linesWF (ls : List LogLine) : Prop :=
  ls.Pairwise (fun a b => a.jobRunId = b.jobRunId → a.lineNumber ≠ b.lineNumber)

theorem getLogLines_perm (ls : List LogLine) (id n : Nat) :
    (GetLogLines ls id n).Perm
      (ls.filter (fun l => l.jobRunId == id && n < l.lineNumber)) :=
  List.perm_insertionSort _ _

theorem getLogLines_mem (ls : List LogLine) (id n : Nat) (l : LogLine) :
    l ∈ GetLogLines ls id n ↔ (l ∈ ls ∧ l.jobRunId = id ∧ n < l.lineNumber) := by
  rw [List.Perm.mem_iff (getLogLines_perm ls id n), List.mem_filter]
  simp [and_assoc]

theorem getLogLines_sorted_le (ls : List LogLine) (id n : Nat) :
    (GetLogLines ls id n).Sorted (fun a b => a.lineNumber ≤ b.lineNumber) := by
  haveI : IsTotal LogLine (fun a b => a.lineNumber ≤ b.lineNumber) :=
    ⟨fun a b => Nat.le_total _ _⟩
  haveI : IsTrans LogLine (fun a b => a.lineNumber ≤ b.lineNumber) :=
    ⟨fun _ _ _ => Nat.le_trans⟩
  exact List.sorted_insertionSort _ _

theorem getLogLines_pairwise_ne (ls : List LogLine) (id n : Nat) (hwf : linesWF ls) :
    (GetLogLines ls id n).Pairwise (fun a b => a.lineNumber ≠ b.lineNumber) := by
  have h1 : (ls.filter (fun l => l.jobRunId == id && n < l.lineNumber)).Pairwise
      (fun a b => a.jobRunId = b.jobRunId → a.lineNumber ≠ b.lineNumber) :=
    List.Pairwise.sublist (List.filter_sublist ls) hwf
  have h2 : (ls.filter (fun l => l.jobRunId == id && n < l.lineNumber)).Pairwise
      (fun a b => a.lineNumber ≠ b.lineNumber) := by
    refine List.Pairwise.imp_of_mem ?_ h1
    intro a b ha hb hR
    have ha2 := (List.mem_filter.mp ha).2
    have hb2 := (List.mem_filter.mp hb).2
    simp only [Bool.and_eq_true, beq_iff_eq, decide_eq_true_eq] at ha2 hb2
    exact hR (ha2.1.trans hb2.1.symm)
  exact (List.Perm.pairwise_iff (fun h => h.symm) (getLogLines_perm ls id n)).mpr h2

theorem getLogLines_sorted_lt (ls : List LogLine) (id n : Nat) (hwf : linesWF ls) :
    (GetLogLines ls id n).Sorted (fun a b => a.lineNumber < b.lineNumber) := by
  have hle := getLogLines_sorted_le ls id n
  have hne := getLogLines_pairwise_ne ls id n hwf
  exact (hle.and hne).imp (fun h => Nat.lt_of_le_of_ne h.1 h.2)

theorem getLogLines_filter_eq (ls : List LogLine) (id n : Nat) (hwf : linesWF ls) :
    GetLogLines ls id n = (GetLogLines ls id 0).filter (fun l => n < l.lineNumber) := by
  haveI : IsAntisymm LogLine (fun a b => a.lineNumber < b.lineNumber) :=
    ⟨fun a b h1 h2 => absurd (Nat.lt_trans h1 h2) (Nat.lt_irrefl _)⟩
  have hA := getLogLines_perm ls id n
  have hB : ((GetLogLines ls id 0).filter (fun l => n < l.lineNumber)).Perm
      ((ls.filter (fun l => l.jobRunId == id && 0 < l.lineNumber)).filter
        (fun l => n < l.lineNumber)) :=
    List.Perm.filter _ (getLogLines_perm ls id 0)
  have hC : (ls.filter (fun l => l.jobRunId == id && 0 < l.lineNumber)).filter
        (fun l => n < l.lineNumber)
      = ls.filter (fun l =>
          decide (n < l.lineNumber) && (l.jobRunId == id && 0 < l.lineNumber)) :=
    List.filter_filter _ _
  have hD : ls.filter (fun l =>
        decide (n < l.lineNumber) && (l.jobRunId == id && 0 < l.lineNumber))
      = ls.filter (fun l => l.jobRunId == id && n < l.lineNumber) := by
    refine List.filter_congr ?_
    intro x _
    by_cases h1 : x.jobRunId = id <;> by_cases h2 : n < x.lineNumber <;>
      simp [h1, h2] <;> omega
  have hperm2 : (GetLogLines ls id n).Perm
      ((GetLogLines ls id 0).filter (fun l => n < l.lineNumber)) := by
    refine hA.trans (List.Perm.trans ?_ hB.symm)
    rw [hC, hD]
  exact @List.eq_of_perm_of_sorted LogLine (fun a b => a.lineNumber < b.lineNumber)
    inferInstance _ _ hperm2 (getLogLines_sorted_lt ls id n hwf)
    (List.Sorted.filter _ (getLogLines_sorted_lt ls id 0 hwf))

theorem sorted_filter_split (n : Nat) :
    ∀ (L : List LogLine), L.Sorted (fun a b => a.lineNumber ≤ b.lineNumber) →
      L.filter (fun l => l.lineNumber ≤ n) ++ L.filter (fun l => n < l.lineNumber) = L := by
  intro L
  induction L with
  | nil => intro _; rfl
  | cons a l ih =>
    intro hs
    rcases List.pairwise_cons.mp hs with ⟨ha, hl⟩
    by_cases hle : a.lineNumber ≤ n
    · have h1 : decide (a.lineNumber ≤ n) = true := by simpa using hle
      have h2 : decide (n < a.lineNumber) = false := by simp; omega
      simp only [List.filter_cons, h1, h2]
      simp [ih hl]
    · have h1 : decide (a.lineNumber ≤ n) = false := by simp; omega
      have h2 : decide (n < a.lineNumber) = true := by simp; omega
      have hfle : l.filter (fun x => x.lineNumber ≤ n) = [] := by
        refine List.filter_eq_nil_iff.mpr ?_
        intro x hx
        have := ha x hx
        simp
        omega
      have hfgt : l.filter (fun x => n < x.lineNumber) = l := by
        refine List.filter_eq_self.mpr ?_
        intro x hx
        have := ha x hx
        simp
        omega
      simp only [List.filter_cons, h1, h2]
      simp [hfle, hfgt]

/-- Claim C7: `GetLogLines` returns exactly the stored lines of the run
with line_number strictly greater than the cursor, strictly ascending by
line_number, and the empty list when no such line exists (in particular
for an unknown run id); moreover for any cursor n, the lines with
line_number at most n from a full read, followed by
`GetLogLines ls id n`, reassemble `GetLogLines ls id 0` exactly, with
no duplicates. -/
theorem get_log_lines_contract (ls : List LogLine) (id n : Nat) (hwf : linesWF ls) :
    (∀ l, l ∈ GetLogLines ls id n ↔ (l ∈ ls ∧ l.jobRunId = id ∧ n < l.lineNumber))
    ∧ (GetLogLines ls id n).Sorted (fun a b => a.lineNumber < b.lineNumber)
    ∧ ((∀ l ∈ ls, l.jobRunId = id → l.lineNumber ≤ n) → GetLogLines ls id n = [])
    ∧ ((GetLogLines ls id 0).filter (fun l => l.lineNumber ≤ n) ++ GetLogLines ls id n
        = GetLogLines ls id 0)
    ∧ (GetLogLines ls id 0).Nodup := by
  refine ⟨getLogLines_mem ls id n, getLogLines_sorted_lt ls id n hwf, ?_, ?_, ?_⟩
  · intro hno
    have hfil : ls.filter (fun l => l.jobRunId == id && n < l.lineNumber) = [] := by
      refine List.filter_eq_nil_iff.mpr ?_
      intro x hx hp
      simp only [Bool.and_eq_true, beq_iff_eq, decide_eq_true_eq] at hp
      exact absurd hp.2 (by have := hno x hx hp.1; omega)
    unfold GetLogLines
    rw [hfil]
    rfl
  · rw [getLogLines_filter_eq ls id n hwf]
    exact sorted_filter_split n _ (getLogLines_sorted_le ls id 0)
  · refine ((getLogLines_pairwise_ne ls id 0 hwf).imp ?_)
    intro a b hab heq
    exact hab (by rw [heq])

/-- Concrete log lines for the C7 witness: run 1 has lines 1..3, run 2
has line 1. -/
def linesEx : List LogLine :=
  [{ id := 3, jobRunId := 1, lineNumber := 3, timestamp := "t3", content := "c",
     stream := "stderr" },
   { id := 1, jobRunId := 1, lineNumber := 1, timestamp := "t1", content := "a",
     stream := "stdout" },
   { id := 2, jobRunId := 1, lineNumber := 2, timestamp := "t2", content := "b",
     stream := "stdout" },
   { id := 4, jobRunId := 2, lineNumber := 1, timestamp := "t4", content := "x",
     stream := "stdout" }]

/-- Witness for claim C7 at a concrete table, cursor 2, and the unknown
run id 99. -/
theorem get_log_lines_contract_witness :
    linesWF linesEx
    ∧ ((GetLogLines linesEx 1 0).filter (fun l => l.lineNumber ≤ 2)
        ++ GetLogLines linesEx 1 2 = GetLogLines linesEx 1 0)
    ∧ GetLogLines linesEx 99 0 = [] := by
  have hwf : linesWF linesEx := by
    unfold linesWF
    decide
  exact ⟨hwf, (get_log_lines_contract linesEx 1 2 hwf).2.2.2.1,
    (get_log_lines_contract linesEx 99 0 hwf).2.2.1 (by decide)⟩

/-- Claim C8: `LoadJobRun` with the sentinel id −1 returns a run of the
requested job with maximal triggered_at (the head of the
triggered_at-descending ordering), errors when the job has no runs, and
with any other id returns the run with exactly that id, erroring when no
row has it. -/
theorem load_run_contract (rows : List RunRow) (name : String) :
    (∀ r, LoadJobRun rows name (-1) = Except.ok r →
        r ∈ rows ∧ r.job = name
          ∧ ∀ r2 ∈ rows, r2.job = name → r2.triggeredAt ≤ r.triggeredAt)
    ∧ ((∀ r ∈ rows, r.job ≠ name) → ∃ e, LoadJobRun rows name (-1) = Except.error e)
    ∧ ((∃ r ∈ rows, r.job = name) → ∃ r, LoadJobRun rows name (-1) = Except.ok r)
    ∧ (∀ (id : Int), id ≠ -1 → ∀ r, LoadJobRun rows name id = Except.ok r →
        r ∈ rows ∧ (r.id : Int) = id)
    ∧ (∀ (id : Int), id ≠ -1 → (∀ r ∈ rows, (r.id : Int) ≠ id) →
        ∃ e, LoadJobRun rows name id = Except.error e)
    ∧ (∀ (id : Int), id ≠ -1 → (∃ r ∈ rows, (r.id : Int) = id) →
        ∃ r, LoadJobRun rows name id = Except.ok r) := by
  haveI : IsTotal RunRow (fun a b => b.triggeredAt ≤ a.triggeredAt) :=
    ⟨fun a b => Nat.le_total b.triggeredAt a.triggeredAt⟩
  haveI : IsTrans RunRow (fun a b => b.triggeredAt ≤ a.triggeredAt) :=
    ⟨fun _ _ _ h1 h2 => Nat.le_trans h2 h1⟩
  have hperm : (orderByTriggeredAtDesc (rows.filter (fun r => r.job == name))).Perm
      (rows.filter (fun r => r.job == name)) := List.perm_insertionSort _ _
  have hsorted : (orderByTriggeredAtDesc (rows.filter (fun r => r.job == name))).Sorted
      (fun a b => b.triggeredAt ≤ a.triggeredAt) := List.sorted_insertionSort _ _
  refine ⟨?_, ?_, ?_, ?_, ?_, ?_⟩
  · intro r hr
    cases hL : orderByTriggeredAtDesc (rows.filter (fun r => r.job == name)) with
    | nil => simp [LoadJobRun, hL] at hr
    | cons r1 tail =>
      have hr1 : r = r1 := by
        simp [LoadJobRun, hL] at hr
        exact hr.symm
      subst hr1
      have hmem : r ∈ rows.filter (fun r => r.job == name) := by
        rw [← hperm.mem_iff, hL]
        exact List.mem_cons_self _ _
      have hmem2 := List.mem_filter.mp hmem
      refine ⟨hmem2.1, by simpa using hmem2.2, ?_⟩
      intro r2 hr2 hjob
      have hr2f : r2 ∈ rows.filter (fun r => r.job == name) :=
        List.mem_filter.mpr ⟨hr2, by simpa using hjob⟩
      rw [← hperm.mem_iff, hL] at hr2f
      rcases List.mem_cons.mp hr2f with heq | htail
      · rw [heq]
      · rw [hL] at hsorted
        exact List.rel_of_sorted_cons hsorted r2 htail
  · intro hno
    have hfil : rows.filter (fun r => r.job == name) = [] := by
      refine List.filter_eq_nil_iff.mpr ?_
      intro x hx hp
      exact hno x hx (by simpa using hp)
    refine ⟨"load latest job run: no rows in result set", ?_⟩
    simp [LoadJobRun, orderByTriggeredAtDesc, hfil]
  · intro ⟨r, hr, hjob⟩
    have hrf : r ∈ orderByTriggeredAtDesc (rows.filter (fun r => r.job == name)) := by
      rw [hperm.mem_iff]
      exact List.mem_filter.mpr ⟨hr, by simpa using hjob⟩
    cases hL : orderByTriggeredAtDesc (rows.filter (fun r => r.job == name)) with
    | nil => rw [hL] at hrf; exact absurd hrf (List.not_mem_nil r)
    | cons r1 tail => exact ⟨r1, by simp [LoadJobRun, hL]⟩
  · intro id hid r hr
    have hbeq : (id == -1) = false := beq_eq_false_iff_ne.mpr hid
    cases hF : rows.filter (fun x => (x.id : Int) == id) with
    | nil => simp [LoadJobRun, hbeq, hF] at hr
    | cons r1 tail =>
      have hr1 : r = r1 := by
        simp [LoadJobRun, hbeq, hF] at hr
        exact hr.symm
      subst hr1
      have hmem : r ∈ rows.filter (fun x => (x.id : Int) == id) := by
        rw [hF]
        exact List.mem_cons_self _ _
      have hmem2 := List.mem_filter.mp hmem
      exact ⟨hmem2.1, by simpa using hmem2.2⟩
  · intro id hid hno
    have hbeq : (id == -1) = false := beq_eq_false_iff_ne.mpr hid
    have hfil : rows.filter (fun x => (x.id : Int) == id) = [] := by
      refine List.filter_eq_nil_iff.mpr ?_
      intro x hx hp
      exact hno x hx (by simpa using hp)
    exact ⟨"load job run by id: no rows in result set", by simp [LoadJobRun, hbeq, hfil]⟩
  · intro id hid ⟨r, hr, hide⟩
    have hbeq : (id == -1) = false := beq_eq_false_iff_ne.mpr hid
    have hrf : r ∈ rows.filter (fun x => (x.id : Int) == id) :=
      List.mem_filter.mpr ⟨hr, by simpa using hide⟩
    cases hF : rows.filter (fun x => (x.id : Int) == id) with
    | nil => rw [hF] at hrf; exact absurd hrf (List.not_mem_nil r)
    | cons r1 tail => exact ⟨r1, by simp [LoadJobRun, hbeq, hF]⟩

/-- A completed run of job `a` for the load-run witnesses. -/
def rowA1 : RunRow :=
  { id := 1, job := "a", triggeredAt := 10, triggeredBy := "manual",
    duration := some 5, status := some 0, message := "m1", isRunning := 0 }

/-- A later completed run of job `a` for the load-run witnesses. -/
def rowA2 : RunRow :=
  { id := 2, job := "a", triggeredAt := 20, triggeredBy := "cron",
    duration := some 5, status := some 1, message := "m2", isRunning := 0 }

/-- An in-flight run of job `b` for the load-run witnesses. -/
def rowB : RunRow :=
  { id := 3, job := "b", triggeredAt := 30, triggeredBy := "cron",
    duration := none, status := none, message := "m3", isRunning := 1 }

/-- A three-row `log` table for the load-run witnesses. -/
def rowsEx : List RunRow := [rowA1, rowA2, rowB]

/-- Witness for claim C8 at the concrete table: latest run of `a`
exists, loading a job with no runs errors, loading an absent id errors,
loading a present id succeeds. -/
theorem load_run_contract_witness :
    (∃ r, LoadJobRun rowsEx "a" (-1) = Except.ok r)
    ∧ (∃ e, LoadJobRun rowsEx "ghost" (-1) = Except.error e)
    ∧ (∃ e, LoadJobRun rowsEx "a" 99 = Except.error e)
    ∧ (∃ r, LoadJobRun rowsEx "a" 3 = Except.ok r) := by
  exact ⟨(load_run_contract rowsEx "a").2.2.1 ⟨rowA2, by decide, by decide⟩,
    (load_run_contract rowsEx "ghost").2.1 (by decide),
    (load_run_contract rowsEx "a").2.2.2.2.1 99 (by decide) (by decide),
    (load_run_contract rowsEx "a").2.2.2.2.2 3 (by decide) ⟨rowB, by decide, by decide⟩⟩

/-- Claim C10: for a non-sentinel id, `LoadJobRun` queries by id alone:
the job-name argument does not influence the result, and when the first
row with that id belongs to a different job, that other job's run is
returned rather than an error. -/
theorem load_run_by_id_ignores_name (rows : List RunRow) (name name2 : String)
    (id : Int) (h : id ≠ -1) :
    LoadJobRun rows name id = LoadJobRun rows name2 id
    ∧ (∀ r rest, rows.filter (fun x => (x.id : Int) == id) = r :: rest →
        LoadJobRun rows name id = Except.ok r) := by
  have hbeq : (id == -1) = false := beq_eq_false_iff_ne.mpr h
  constructor
  · simp [LoadJobRun, hbeq]
  · intro r rest hfil
    simp [LoadJobRun, hbeq, hfil]

/-- Witness for claim C10: id 3 belongs to job `b`, yet loading it under
the name `a` returns job `b`'s run. -/
theorem load_run_by_id_ignores_name_witness :
    LoadJobRun rowsEx "a" 3 = LoadJobRun rowsEx "zzz" 3
    ∧ LoadJobRun rowsEx "a" 3 = Except.ok rowB
    ∧ rowB.job ≠ "a" := by
  have h := load_run_by_id_ignores_name rowsEx "a" "zzz" 3 (by decide)
  exact ⟨h.1, h.2 rowB [] (by decide), by decide⟩

end Cheek
